import Mathlib

/-!
# Roster acquisition and change-detection pipeline: shallow embedding

This file embeds, in Lean, the core of the roster tracker:

* the Identity Normalizer (`normalizeName`, `normalizeTitle`, `computeEntityKey`
  from `server/services/scraper.ts`),
* the DOM Extraction Engine (`parseTeamPage`, `extractPersonsFromJsonLd`,
  `extractMemberInfo`, `extractMembersFallback`),
* the Deduplicator (`deduplicateMembers`),
* the Roster Differ (`detectChanges`),
* the Acquisition Orchestrator (`scrapeFirmWithFallback`, `scrapeFirm`), and
* the batch scheduler loop (`SchedulerService.runScrapingJob`),

and proves/refutes the specified properties of each.

Modelling conventions:
* JavaScript strings are Lean `String`s; `undefined`/missing optional fields are
  `Option.none`.  JS truthiness on strings (`''` is falsy) is modelled by
  `jsTruthy`/`jsOr`.
* The DOM itself is not modelled: an extraction "element" is characterised by
  the results of the fixed CSS-selector queries the source performs on it
  (`Element` below), and a document by the per-strategy query results (`Doc`).
* `fetch`/Playwright network effects are modelled by `Except String` outcomes
  supplied as parameters; storage writes are explicit state passing on a
  `Storage` record; browser/page lifetimes are tracked in a `BrowserState`.
* WHATWG URL resolution (`new URL(u, base)`) is an uninterpreted total
  function parameter `resolve`; the source's `str.startsWith('http')` shortcut
  is modelled as in the source.
-/

namespace Tracker

/-! ## JS string primitives -/

/-- JS truthiness of an optional string: `undefined`, `null` and `''` are falsy. -/
def jsTruthy : Option String → Bool
  | none => false
  | some s => s ≠ ""

/-- JS `a || b` where `a` is an optional string and the result is a string. -/
def jsOr (a : Option String) (b : String) : String :=
  match a with
  | some s => if s = "" then b else s
  | none => b

/-- JS `a || b` on two optional strings. -/
def jsOrOpt (a b : Option String) : Option String :=
  if jsTruthy a then a else b

/-- JS `s || undefined`: turn the empty string into `none`. -/
def strToOpt (s : String) : Option String :=
  if s = "" then none else some s

/-- `\s` character class of JS regexps (ASCII part plus NBSP; the further
Unicode space code points never occur in inputs considered here). -/
def jsWhitespaceCh (c : Char) : Bool :=
  c.toNat = 32 || c.toNat = 9 || c.toNat = 10 || c.toNat = 13 ||
  c.toNat = 11 || c.toNat = 12 || c.toNat = 160

/-- `[A-Z]` (code points 65–90). -/
def isUpperAZ (c : Char) : Bool := 65 ≤ c.toNat && c.toNat ≤ 90

/-- `[a-z]` (code points 97–122). -/
def isLowerAZ (c : Char) : Bool := 97 ≤ c.toNat && c.toNat ≤ 122

/-- JS `.` (without the `s` flag): any char except a line terminator. -/
def jsDotCh (c : Char) : Bool :=
  !(c.toNat = 10 || c.toNat = 13 || c.toNat = 8232 || c.toNat = 8233)

/-- JS `String.prototype.trim()`. -/
def jsTrim (s : String) : String :=
  ⟨((s.data.dropWhile jsWhitespaceCh).reverse.dropWhile jsWhitespaceCh).reverse⟩

/-- JS `String.prototype.toLowerCase()` (ASCII range, as `Char.toLower`). -/
def jsToLower (s : String) : String := ⟨s.data.map Char.toLower⟩

/-- JS `replace(/\s+/g, ' ')`: collapse every maximal whitespace run to one
space.  The boolean argument records whether the previous char was whitespace. -/
def collapseWSAux : List Char → Bool → List Char
  | [], _ => []
  | c :: cs, inRun =>
    if jsWhitespaceCh c then
      if inRun then collapseWSAux cs true else ' ' :: collapseWSAux cs true
    else c :: collapseWSAux cs false

def collapseWS (s : String) : String := ⟨collapseWSAux s.data false⟩

/-- JS `replace(/[.,]/g, '')`. -/
def stripDotComma (s : String) : String :=
  ⟨s.data.filter (fun c => !(c = '.' || c = ','))⟩

/-- Char-list version of "is this list a leading segment of that one". -/
def leadsCh : List Char → List Char → Bool
  | [], _ => true
  | _ :: _, [] => false
  | a :: as, b :: bs => a = b && leadsCh as bs

/-- Char-list version of JS `String.prototype.includes`. -/
def occursInCh (sub : List Char) : List Char → Bool
  | [] => leadsCh sub []
  | l@(_ :: rest) => leadsCh sub l || occursInCh sub rest

/-- JS `s.includes(sub)`. -/
def strContains (s sub : String) : Bool := occursInCh sub.data s.data

/-! ## Identity Normalizer (`scraper.ts` lines 715–745) -/

/-- `WebScraper.normalizeName`: trim, collapse whitespace, strip `.`/`,`,
lowercase. -/
def normalizeName (name : String) : String :=
  jsToLower (stripDotComma (collapseWS (jsTrim name)))

/-- `WebScraper.normalizeTitle`: trim and collapse whitespace. -/
def normalizeTitle (title : String) : String :=
  collapseWS (jsTrim title)

/-- `WebScraper.computeEntityKey`: LinkedIn URL, then e-mail (lowercased),
then normalized name. -/
def computeEntityKey (name : String) (linkedinUrl email : Option String) : String :=
  if jsTruthy linkedinUrl then "li:" ++ linkedinUrl.getD ""
  else if jsTruthy email then "em:" ++ jsToLower (email.getD "")
  else "nm:" ++ normalizeName name

/-- `WebScraper.deriveSeniority`: substring tests on the lowercased title,
mirroring the source's unanchored regexps. -/
def deriveSeniority (title : String) : Option String :=
  if title = "" then none
  else
    let t := jsToLower title
    if strContains t "managing partner" || strContains t "general partner" ||
        strContains t "gp" then some "partner"
    else if strContains t "partner" then some "partner"
    else if strContains t "managing director" || strContains t "md" then
      some "managing_director"
    else if strContains t "principal" then some "principal"
    else if strContains t "vice president" || strContains t "vp" then
      some "vice_president"
    else if strContains t "associate" then some "associate"
    else if strContains t "analyst" then some "analyst"
    else none

/-! ## Data model -/

/-- The `ScrapedMember` interface of `scraper.ts` (lines 13–37).  All optional
string fields are `Option String`; `focusAreas` is an optional string array. -/
structure ScrapedMember where
  name : String
  title : Option String := none
  bio : Option String := none
  focusAreas : Option (List String) := none
  imageUrl : Option String := none
  profileUrl : Option String := none
  linkedinUrl : Option String := none
  email : Option String := none
  phone : Option String := none
  location : Option String := none
  officeCountry : Option String := none
  department : Option String := none
  seniorityLevel : Option String := none
  normalizedTitle : Option String := none
  normalizedName : Option String := none
  entityKey : Option String := none
  twitterUrl : Option String := none
  githubUrl : Option String := none
  personalWebsite : Option String := none
  orderIndex : Option Nat := none
  category : Option String := none
  profilePhotoHash : Option String := none
deriving Repr, DecidableEq

/-! ## Deduplicator (`scraper.ts` lines 703–713) -/

/-- The key used by `deduplicateMembers`:
`member.entityKey || member.normalizedName || member.name.toLowerCase().replace(/\s+/g, ' ')`. -/
def dedupKey (m : ScrapedMember) : String :=
  jsOr m.entityKey (jsOr m.normalizedName (collapseWS (jsToLower m.name)))

/-- The `members.filter` with a closure-captured `seen : Set<string>`:
keep a record iff its key has not been seen yet. -/
def dedupGo : List ScrapedMember → List String → List ScrapedMember
  | [], _ => []
  | m :: rest, seen =>
    let key := dedupKey m
    if seen.contains key then dedupGo rest seen
    else m :: dedupGo rest (key :: seen)

/-- `WebScraper.deduplicateMembers`. -/
def deduplicateMembers (members : List ScrapedMember) : List ScrapedMember :=
  dedupGo members []

/-! ## DOM Extraction Engine (`scraper.ts` lines 463–701)

The DOM is abstracted away: an `Element` records, for each fixed selector
query the source performs inside one candidate container, what that query
returned (`none` = no matching node; `some t` = the `text()` / attribute of
the first match).  A `Doc` records the per-strategy query results for one
HTML document. -/

/-- One candidate container matched by the selector cascade.
`nameTexts` lines up with the source's `nameSelectors`
(`['h1','h2','h3','h4','.name','.ink__title','[class*="name"]','strong','b']`),
`titleTexts` with `titleSelectors`, `bioTexts` with `bioSelectors`;
`imgSrc` is the `src` attribute of the first `img` (when present),
`anchorHrefs` the `href` attributes of all `a` descendants in order, and
`locText` the text of the first `.location, .office, [data-field="location"]`. -/
structure Element where
  nameTexts : List (Option String) := []
  titleTexts : List (Option String) := []
  bioTexts : List (Option String) := []
  imgSrc : Option String := none
  anchorHrefs : List (Option String) := []
  locText : Option String := none
deriving Repr, DecidableEq

/-- A parsed JSON-LD node: `isPerson` models the `@type === 'Person'` check
(including the array form); the remaining fields are the properties the
source reads.  `name` is `item.name || ''`. -/
structure JsonLdItem where
  isPerson : Bool := true
  name : String := ""
  url : Option String := none
  image : Option String := none
  jobTitle : Option String := none
  email : Option String := none
  telephone : Option String := none
  sameAs : List String := []
deriving Repr, DecidableEq

/-- One HTML document, abstracted to the query results of the three
strategies: the JSON-LD items, the element lists returned by each entry of
the fixed `selectors` cascade (in order), and the trimmed-text candidates of
`$('*')` for the free-text fallback. -/
structure Doc where
  jsonLdItems : List JsonLdItem := []
  selectorMatches : List (List Element) := []
  allTexts : List String := []
deriving Repr, DecidableEq

/-- First selector hit with non-empty trimmed text (the `name`/`title` loops
of `extractMemberInfo`): `if (el.length && el.text().trim()) { x = el.text().trim(); break; }`. -/
def firstNonEmptyText : List (Option String) → String
  | [] => ""
  | none :: rest => firstNonEmptyText rest
  | some t :: rest => if jsTrim t ≠ "" then jsTrim t else firstNonEmptyText rest

/-- The `bio` loop: additionally skip texts equal to the name or the title. -/
def firstBioText (name title : String) : List (Option String) → String
  | [] => ""
  | none :: rest => firstBioText name title rest
  | some t :: rest =>
    if jsTrim t ≠ "" && jsTrim t ≠ name && jsTrim t ≠ title then jsTrim t
    else firstBioText name title rest

/-- `/^https?:\/\//.test(abs)`. -/
def isHttpUrl (s : String) : Bool :=
  leadsCh "http://".data s.data || leadsCh "https://".data s.data

/-- `src.startsWith('http') ? src : new URL(src, baseUrl).href`. -/
def absolutize (resolve : String → String → String) (baseUrl href : String) : String :=
  if leadsCh "http".data href.data then href else resolve baseUrl href

/-- Accumulator of the social-link loop over every `a` in the container. -/
structure SocialAcc where
  linkedinUrl : Option String := none
  twitterUrl : Option String := none
  githubUrl : Option String := none
  personalWebsite : Option String := none
  email : Option String := none
deriving Repr, DecidableEq

/-- One iteration of `element.find('a').each(...)` in `extractMemberInfo`.
LinkedIn/Twitter/GitHub reassign (last wins); `personalWebsite` is only set
when still unset; `mailto:` strips the scheme and trims. -/
def socialStep (resolve : String → String → String) (baseUrl : String)
    (acc : SocialAcc) (href? : Option String) : SocialAcc :=
  match href? with
  | none => acc
  | some href =>
    if href = "" then acc
    else
      let abs := absolutize resolve baseUrl href
      if strContains abs "linkedin.com" then { acc with linkedinUrl := some abs }
      else if strContains abs "twitter.com" || strContains abs "x.com" then
        { acc with twitterUrl := some abs }
      else if strContains abs "github.com" then { acc with githubUrl := some abs }
      else if leadsCh "mailto:".data href.data then
        { acc with email := some (jsTrim (href.drop 7)) }
      else if acc.personalWebsite = none && isHttpUrl abs then
        { acc with personalWebsite := some abs }
      else acc

/-- `WebScraper.extractMemberInfo` (lines 557–669): selector-cascade record
extraction from one container.  Returns `none` exactly when no name selector
produced non-empty trimmed text. -/
def extractMemberInfo (resolve : String → String → String) (elem : Element)
    (baseUrl : String) (orderIndex : Option Nat) : Option ScrapedMember :=
  let name := firstNonEmptyText elem.nameTexts
  if name = "" then none
  else
    let title := firstNonEmptyText elem.titleTexts
    let bio := firstBioText name title elem.bioTexts
    let imageUrl :=
      match elem.imgSrc with
      | some src => if src ≠ "" then absolutize resolve baseUrl src else ""
      | none => ""
    let profileUrl :=
      match elem.anchorHrefs.head? with
      | some (some href) => if href ≠ "" then absolutize resolve baseUrl href else ""
      | _ => ""
    let social := elem.anchorHrefs.foldl (socialStep resolve baseUrl) {}
    let location :=
      match elem.locText with
      | some t => jsTrim t
      | none => ""
    some {
      name := name
      title := strToOpt title
      bio := strToOpt bio
      imageUrl := strToOpt imageUrl
      profileUrl := strToOpt profileUrl
      linkedinUrl := social.linkedinUrl
      twitterUrl := social.twitterUrl
      githubUrl := social.githubUrl
      personalWebsite := social.personalWebsite
      email := social.email
      location := strToOpt location
      seniorityLevel := deriveSeniority title
      normalizedName := some (normalizeName name)
      normalizedTitle := if title ≠ "" then some (normalizeTitle title) else none
      entityKey := some (computeEntityKey name social.linkedinUrl social.email)
      orderIndex := orderIndex
    }

/-- `WebScraper.extractPersonsFromJsonLd` (lines 508–555): keep `Person`
items with a non-empty `name` and map their fields to a record. -/
def extractPersonsFromJsonLd (resolve : String → String → String)
    (items : List JsonLdItem) (baseUrl : String) : List ScrapedMember :=
  items.filterMap fun item =>
    if item.isPerson && item.name ≠ "" then
      let linkedinUrl := item.sameAs.find? (fun u => strContains u "linkedin.com")
      let twitterUrl := item.sameAs.find? (fun u => strContains u "twitter.com")
      let githubUrl := item.sameAs.find? (fun u => strContains u "github.com")
      let title := if jsTruthy item.jobTitle then item.jobTitle else none
      some {
        name := item.name
        title := title
        profileUrl := if jsTruthy item.url then some (resolve baseUrl (item.url.getD "")) else none
        imageUrl := if jsTruthy item.image then some (resolve baseUrl (item.image.getD "")) else none
        email := if jsTruthy item.email then item.email else none
        phone := if jsTruthy item.telephone then item.telephone else none
        linkedinUrl := linkedinUrl
        twitterUrl := twitterUrl
        githubUrl := githubUrl
        normalizedName := some (normalizeName item.name)
        normalizedTitle := title.map normalizeTitle
        entityKey := some (computeEntityKey item.name linkedinUrl item.email)
      }
    else none

/-- `[A-Z][a-z]+`: one capitalized word.  Greedy matching is exact here
because in both fallback patterns the char following the word is never
lowercase. -/
def capWordCh : List Char → Option (List Char × List Char)
  | [] => none
  | c :: rest =>
    if isUpperAZ c then
      let ls := rest.takeWhile isLowerAZ
      if ls.isEmpty then none else some (c :: ls, rest.drop ls.length)
    else none

/-- `^([A-Z][a-z]+\s+[A-Z][a-z]+),\s*(.+)$` on an already-trimmed text.
Returns the trimmed capture groups (name, title). -/
def matchNameCommaTitle (s : String) : Option (String × String) :=
  match capWordCh s.data with
  | none => none
  | some (w1, r1) =>
    let ws := r1.takeWhile jsWhitespaceCh
    if ws.isEmpty then none
    else
      match capWordCh (r1.drop ws.length) with
      | none => none
      | some (w2, r3) =>
        match r3 with
        | ',' :: r4 =>
          let r5 := r4.dropWhile jsWhitespaceCh
          if r5.isEmpty then none
          else if r5.all jsDotCh then
            some (jsTrim ⟨w1 ++ ws ++ w2⟩, jsTrim ⟨r5⟩)
          else none
        | _ => none

/-- `^([A-Z][a-z]+\s+[A-Z][a-z]+)\s*-\s*(.+)$` on an already-trimmed text. -/
def matchNameDashTitle (s : String) : Option (String × String) :=
  match capWordCh s.data with
  | none => none
  | some (w1, r1) =>
    let ws := r1.takeWhile jsWhitespaceCh
    if ws.isEmpty then none
    else
      match capWordCh (r1.drop ws.length) with
      | none => none
      | some (w2, r3) =>
        match r3.dropWhile jsWhitespaceCh with
        | '-' :: r4 =>
          let r5 := r4.dropWhile jsWhitespaceCh
          if r5.isEmpty then none
          else if r5.all jsDotCh then
            some (jsTrim ⟨w1 ++ ws ++ w2⟩, jsTrim ⟨r5⟩)
          else none
        | _ => none

/-- The record pushed by `extractMembersFallback` for one pattern match. -/
def fallbackMember (name title : String) : ScrapedMember :=
  { name := name
    title := some title
    normalizedName := some (normalizeName name)
    normalizedTitle := some (normalizeTitle title)
    entityKey := some (computeEntityKey name none none) }

/-- One iteration of the `$('*').each(...)` loop of `extractMembersFallback`:
trim the node's text, check the length window, and push a member for each of
the two "Name, Title" / "Name - Title" patterns that matches. -/
def fallbackStep (acc : List ScrapedMember) (raw : String) : List ScrapedMember :=
  let text := jsTrim raw
  if text ≠ "" && 5 < text.length && text.length < 200 then
    let acc1 :=
      match matchNameCommaTitle text with
      | some (name, title) => acc ++ [fallbackMember name title]
      | none => acc
    match matchNameDashTitle text with
    | some (name, title) => acc1 ++ [fallbackMember name title]
    | none => acc1
  else acc

/-- `WebScraper.extractMembersFallback` (lines 671–701). -/
def extractMembersFallback (texts : List String) : List ScrapedMember :=
  texts.foldl fallbackStep []

/-- One container of the selector-cascade loop of `parseTeamPage`
(lines 492–497): extract, increment `orderIndex` per container, and keep
the record when its name is truthy. -/
def cascadeElemStep (resolve : String → String → String) (baseUrl : String)
    (acc : List ScrapedMember × Nat) (elem : Element) : List ScrapedMember × Nat :=
  match extractMemberInfo resolve elem baseUrl (some acc.2) with
  | some m => if m.name ≠ "" then (acc.1 ++ [m], acc.2 + 1) else (acc.1, acc.2 + 1)
  | none => (acc.1, acc.2 + 1)

/-- The selector-cascade loop of `parseTeamPage` (lines 488–498): every
selector's element list contributes, in order. -/
def selectorCascade (resolve : String → String → String)
    (selectorMatches : List (List Element)) (baseUrl : String) :
    List ScrapedMember × Nat :=
  selectorMatches.foldl
    (fun acc elems => elems.foldl (cascadeElemStep resolve baseUrl) acc)
    ([], 0)

/-- `WebScraper.parseTeamPage` (lines 463–506): JSON-LD strategy, then the
selector cascade (all selectors contribute), then — only when both yielded
nothing — the free-text fallback; finally deduplicate. -/
def parseTeamPage (resolve : String → String → String) (doc : Doc)
    (baseUrl : String) : List ScrapedMember :=
  let members := extractPersonsFromJsonLd resolve doc.jsonLdItems baseUrl
  let members := members ++ (selectorCascade resolve doc.selectorMatches baseUrl).1
  let members :=
    if members.length = 0 then members ++ extractMembersFallback doc.allTexts
    else members
  deduplicateMembers members

/-! ## Persistence model -/

/-- The `previousData`/`newData` payload of a change-history row. -/
structure EventData where
  name : String
  title : Option String := none
  bio : Option String := none
  location : Option String := none
deriving Repr, DecidableEq

/-- One change-history row (`storage.createChangeHistory`). -/
structure ChangeRec where
  firmId : String
  memberId : Option Nat := none
  changeType : String
  memberName : String
  memberTitle : Option String := none
  previousData : Option EventData := none
  newData : Option EventData := none
deriving Repr, DecidableEq

/-- One scrape-history row (`storage.createScrapeHistory`). -/
structure HistoryEntry where
  firmId : String
  status : String
  membersFound : Nat
  changesDetected : Nat
  errorMessage : Option String := none
deriving Repr, DecidableEq

/-- A persisted team member: a `ScrapedMember`-shaped payload plus row id,
firm id and the active flag. -/
structure StoredMember where
  id : Nat
  firmId : String
  isActive : Bool
  data : ScrapedMember
deriving Repr, DecidableEq

/-- The persistence interface as explicit state. -/
structure Storage where
  members : List StoredMember := []
  nextId : Nat := 0
  scrapeHistory : List HistoryEntry := []
  changeHistory : List ChangeRec := []
  firmUpdates : List (String × String) := []
deriving Repr, DecidableEq

def Storage.activeMembersByFirm (st : Storage) (firmId : String) : List StoredMember :=
  st.members.filter (fun m => m.firmId = firmId && m.isActive)

def Storage.deactivateMember (st : Storage) (id : Nat) : Storage :=
  let f := fun (m : StoredMember) => if m.id = id then { m with isActive := false } else m
  { st with members := st.members.map f }

def Storage.createMember (st : Storage) (firmId : String) (data : ScrapedMember) :
    StoredMember × Storage :=
  let sm : StoredMember := { id := st.nextId, firmId := firmId, isActive := true, data := data }
  (sm, { st with members := st.members ++ [sm], nextId := st.nextId + 1 })

def Storage.updateMemberData (st : Storage) (id : Nat)
    (f : ScrapedMember → ScrapedMember) : Storage :=
  let g := fun (m : StoredMember) => if m.id = id then { m with data := f m.data } else m
  { st with members := st.members.map g }

def Storage.appendChange (st : Storage) (c : ChangeRec) : Storage :=
  { st with changeHistory := st.changeHistory ++ [c] }

def Storage.appendScrapeHistory (st : Storage) (h : HistoryEntry) : Storage :=
  { st with scrapeHistory := st.scrapeHistory ++ [h] }

/-- `storage.updateFirm(...)` calls, logged as (firmId, update kind). -/
def Storage.recordFirmUpdate (st : Storage) (firmId kind : String) : Storage :=
  { st with firmUpdates := st.firmUpdates ++ [(firmId, kind)] }

/-! ## Roster Differ (`WebScraper.detectChanges`, lines 747–882) -/

/-- Key of a stored member in `currentMemberMap`:
`m.entityKey || m.name.toLowerCase()`. -/
def storedKey (m : StoredMember) : String :=
  jsOr m.data.entityKey (jsToLower m.data.name)

/-- Key of a scraped member in `scrapedMemberMap`:
`m.entityKey || (m.normalizedName || m.name.toLowerCase())`. -/
def scrapedKey (m : ScrapedMember) : String :=
  jsOr m.entityKey (jsOr m.normalizedName (jsToLower m.name))

/-- `Map.get` on a JS `Map` built from an association list: later insertions
overwrite earlier ones, so lookup returns the value of the last matching pair. -/
def jsMapGet (pairs : List (String × StoredMember)) (k : String) : Option StoredMember :=
  (pairs.reverse.find? (fun p => p.1 = k)).map (·.2)

/-- The update test of the differ: exactly the five compared fields
(title, bio, imageUrl, location, seniorityLevel). -/
def hasChanges (existing : StoredMember) (scraped : ScrapedMember) : Bool :=
  existing.data.title ≠ scraped.title ||
  existing.data.bio ≠ scraped.bio ||
  existing.data.imageUrl ≠ scraped.imageUrl ||
  existing.data.location ≠ scraped.location ||
  existing.data.seniorityLevel ≠ scraped.seniorityLevel

/-- "Detect removed members" loop body. -/
def removedStep (firmId : String) (scrapedKeys : List String)
    (acc : Nat × Storage) (cur : StoredMember) : Nat × Storage :=
  let key := storedKey cur
  if scrapedKeys.contains key then acc
  else
    let st := acc.2.deactivateMember cur.id
    let st := st.appendChange
      { firmId := firmId
        memberId := some cur.id
        changeType := "removed"
        memberName := cur.data.name
        memberTitle := cur.data.title
        previousData := some
          { name := cur.data.name, title := cur.data.title
            bio := cur.data.bio, location := cur.data.location }
        newData := none }
    (acc.1 + 1, st)

/-- "Detect added or updated members" loop body. -/
def addedStep (firmId : String) (currentPairs : List (String × StoredMember))
    (acc : Nat × Storage) (scr : ScrapedMember) : Nat × Storage :=
  let key := scrapedKey scr
  match jsMapGet currentPairs key with
  | none =>
    let (created, st) := acc.2.createMember firmId { scr with entityKey := some key }
    let st := st.appendChange
      { firmId := firmId
        memberId := some created.id
        changeType := "added"
        memberName := scr.name
        memberTitle := scr.title
        previousData := none
        newData := some
          { name := scr.name, title := scr.title
            bio := scr.bio, location := scr.location } }
    (acc.1 + 1, st)
  | some existing =>
    if hasChanges existing scr then
      let st := acc.2.updateMemberData existing.id (fun d =>
        { d with
            title := scr.title
            bio := scr.bio
            focusAreas := scr.focusAreas
            imageUrl := scr.imageUrl
            profileUrl := scr.profileUrl
            location := scr.location
            seniorityLevel := scr.seniorityLevel
            normalizedTitle := scr.normalizedTitle
            normalizedName := scr.normalizedName
            entityKey := jsOrOpt scr.entityKey d.entityKey })
      let st := st.appendChange
        { firmId := firmId
          memberId := some existing.id
          changeType := "updated"
          memberName := existing.data.name
          memberTitle := jsOrOpt scr.title existing.data.title
          previousData := some
            { name := existing.data.name, title := existing.data.title
              bio := existing.data.bio, location := existing.data.location }
          newData := some
            { name := existing.data.name, title := scr.title
              bio := scr.bio, location := scr.location } }
      (acc.1 + 1, st)
    else acc

/-- `WebScraper.detectChanges`: returns the number of changes detected and
the updated storage. -/
def detectChanges (firmId : String) (scrapedMembers : List ScrapedMember)
    (st : Storage) : Nat × Storage :=
  let currentMembers := st.activeMembersByFirm firmId
  let currentPairs := currentMembers.map (fun m => (storedKey m, m))
  let scrapedKeys := scrapedMembers.map scrapedKey
  let acc := currentMembers.foldl (removedStep firmId scrapedKeys) (0, st)
  scrapedMembers.foldl (addedStep firmId currentPairs) acc

/-! ## Acquisition Orchestrator (`scraper.ts` lines 331–460)

Network effects are abstracted: `staticResult` is the outcome of
`fetch` + `parseTeamPage` (an HTTP error or a member list), `dynamicResult`
the outcome of the whole Playwright phase (navigation, tab clicks, stage
filters, parsing — any thrown error collapses into `Except.error`). -/

/-- `WebScraper.scrapeFirmWithFallback`: return the static result iff it has
at least 5 records; otherwise (few records or static error) the control flow
falls into the Playwright branch, whose outcome (success or error) is
returned as-is.  No record-count comparison between the two attempts is
performed. -/
def scrapeFirmWithFallback
    (staticResult dynamicResult : Except String (List ScrapedMember)) :
    Except String (List ScrapedMember) :=
  match staticResult with
  | .ok members => if 5 ≤ members.length then .ok members else dynamicResult
  | .error _ => dynamicResult

/-- Escalation condition of the orchestrator: static attempt errored or
yielded fewer than 5 records. -/
def escalatesStatic : Except String (List ScrapedMember) → Bool
  | .ok members => members.length < 5
  | .error _ => true

/-- Browser/page resources held by the `WebScraper` instance. -/
structure BrowserState where
  browserOpen : Bool := false
  pagesOpen : Nat := 0
deriving Repr, DecidableEq

/-- The Playwright branch of `scrapeFirmWithFallback`, with resource
tracking: `initialize()` launches the browser/context, `context.newPage()`
opens a page; `page.close()` runs only on the success path — a throw at any
step between `newPage` and `page.close()` (goto, tab clicks, load-more,
scrolling, stage filters, `content()`, `screenshot()`) propagates without
closing the page, and never closes the browser. -/
def dynamicPhase (dynamicResult : Except String (List ScrapedMember))
    (bs : BrowserState) : Except String (List ScrapedMember) × BrowserState :=
  let bs := { bs with browserOpen := true }
  let bs := { bs with pagesOpen := bs.pagesOpen + 1 }
  match dynamicResult with
  | .ok members => (.ok members, { bs with pagesOpen := bs.pagesOpen - 1 })
  | .error e => (.error e, bs)

/-- `scrapeFirmWithFallback` with browser-resource tracking; the static
branch touches no browser resources. -/
def scrapeFirmWithFallbackRes
    (staticResult dynamicResult : Except String (List ScrapedMember))
    (bs : BrowserState) : Except String (List ScrapedMember) × BrowserState :=
  match staticResult with
  | .ok members =>
    if 5 ≤ members.length then (.ok members, bs)
    else dynamicPhase dynamicResult bs
  | .error _ => dynamicPhase dynamicResult bs

/-- `WebScraper.close()`: closes the context (and with it every page) and
the browser. -/
def closeBrowser (_bs : BrowserState) : BrowserState :=
  { browserOpen := false, pagesOpen := 0 }

/-- The result object of `WebScraper.scrapeFirm`. -/
structure ScrapeFirmResult where
  members : List ScrapedMember := []
  error : Option String := none
deriving Repr, DecidableEq

/-- `WebScraper.scrapeFirm` (lines 402–460): on fallback success, record a
`success` scrape-history row and update the firm's `lastScraped`; on any
thrown error, catch it, record an `error` row with the message, flag the
firm, and return a result object carrying the empty member list and the
error — nothing is re-thrown.  (Artifact file writes are outside the model.) -/
def scrapeFirm (firmId : String)
    (fallbackResult : Except String (List ScrapedMember)) (st : Storage) :
    ScrapeFirmResult × Storage :=
  match fallbackResult with
  | .ok members =>
    let st := st.appendScrapeHistory
      { firmId := firmId, status := "success", membersFound := members.length
        changesDetected := 0, errorMessage := none }
    let st := st.recordFirmUpdate firmId "lastScraped"
    ({ members := members }, st)
  | .error msg =>
    let st := st.appendScrapeHistory
      { firmId := firmId, status := "error", membersFound := 0
        changesDetected := 0, errorMessage := some msg }
    let st := st.recordFirmUpdate firmId "status:error"
    ({ members := [], error := some msg }, st)

/-! ## Batch scheduler (`SchedulerService.runScrapingJob`) -/

/-- One target of a batch run: firm id plus the outcomes of its static and
dynamic attempts. -/
structure FirmRun where
  firmId : String
  staticResult : Except String (List ScrapedMember)
  dynamicResult : Except String (List ScrapedMember)

/-- The counters of `runScrapingJob`. -/
structure JobStats where
  successCount : Nat := 0
  errorCount : Nat := 0
  totalChanges : Nat := 0
deriving Repr, DecidableEq

/-- One iteration of the `for (const firm of firms)` loop: scrape, and on a
per-target error just count it and continue (the scrape-history row was
already written inside `scrapeFirm`); on success run change detection.
(Email notification and the inter-target delay are outside the model.) -/
def runFirmStep (acc : JobStats × Storage × BrowserState) (f : FirmRun) :
    JobStats × Storage × BrowserState :=
  let fbRes := scrapeFirmWithFallbackRes f.staticResult f.dynamicResult acc.2.2
  let sfRes := scrapeFirm f.firmId fbRes.1 acc.2.1
  match (sfRes.1).error with
  | some _ => ({ acc.1 with errorCount := acc.1.errorCount + 1 }, sfRes.2, fbRes.2)
  | none =>
    let dc := detectChanges f.firmId (sfRes.1).members sfRes.2
    ({ acc.1 with
        successCount := acc.1.successCount + 1
        totalChanges := acc.1.totalChanges + dc.1 }, dc.2, fbRes.2)

/-- `SchedulerService.runScrapingJob`: process every firm sequentially, then
release the browser in the `finally` block. -/
def runScrapingJob (firms : List FirmRun) (st : Storage) (bs : BrowserState) :
    JobStats × Storage × BrowserState :=
  let r := firms.foldl runFirmStep ({}, st, bs)
  (r.1, r.2.1, closeBrowser r.2.2)

/-! ## Generic helper lemmas -/

theorem foldl_fixed {α β : Type} (f : β → α → β) :
    ∀ (l : List α) (b : β), (∀ x ∈ l, ∀ acc, f acc x = acc) → l.foldl f b = b
  | [], _, _ => rfl
  | x :: xs, b, h => by
    simp only [List.foldl_cons, h x (List.mem_cons_self x xs) b]
    exact foldl_fixed f xs b (fun y hy acc => h y (List.mem_cons_of_mem x hy) acc)

theorem foldl_pres {α β : Type} (f : β → α → β) (P : β → Prop)
    (hstep : ∀ b a, P b → P (f b a)) :
    ∀ (l : List α) (b : β), P b → P (l.foldl f b)
  | [], _, hb => hb
  | x :: xs, b, hb => foldl_pres f P hstep xs (f b x) (hstep b x hb)

/-! ## Claim C1 — orchestrator result selection -/

/-- Counterexample to C1: the static attempt finds 3 records (below the
threshold, so the run escalates), the dynamic attempt finds only 1, yet the
orchestrator returns the dynamic result, not the better static one. -/
def staticC1 : List ScrapedMember :=
  [{ name := "Ada One" }, { name := "Ben Two" }, { name := "Cal Three" }]

def dynC1 : List ScrapedMember := [{ name := "Ada One" }]

/-- Claim C1, counterexample: with a 3-record static result and a 1-record
dynamic result, the final snapshot is the dynamic one although it has fewer
records than the static one — the claimed "better of the two" selection does
not exist. -/
theorem scrapeFirmWithFallback_not_best_of : scrapeFirmWithFallback (.ok staticC1) (.ok dynC1) = .ok dynC1 ∧ dynC1.length < staticC1.length ∧ dynC1 ≠ staticC1 := by
  refine ⟨rfl, by decide, by decide⟩

/-- Claim C1 (amended): whenever the static attempt escalates (error or
fewer than 5 records), the orchestrator returns the dynamic outcome
unconditionally — no record-count comparison between the two attempts is
made, so a smaller dynamic result still supersedes the static one. -/
theorem scrapeFirmWithFallback_escalated_returns_dynamic (staticResult dynamicResult : Except String (List ScrapedMember)) (h : escalatesStatic staticResult = true) : scrapeFirmWithFallback staticResult dynamicResult = dynamicResult := by
  cases staticResult with
  | ok members =>
    simp only [escalatesStatic, decide_eq_true_eq] at h
    simp only [scrapeFirmWithFallback]
    rw [if_neg (by omega)]
  | error e => rfl

/-- Witness for the amended C1 theorem at a concrete escalating input. -/
theorem scrapeFirmWithFallback_escalated_returns_dynamic_witness : escalatesStatic (.ok ([] : List ScrapedMember)) = true ∧ scrapeFirmWithFallback (.ok ([] : List ScrapedMember)) (.error "playwright timeout") = .error "playwright timeout" := ⟨by decide, scrapeFirmWithFallback_escalated_returns_dynamic (.ok []) (.error "playwright timeout") (by decide)⟩

/-! ## Claim C5 — selector-cascade acceptance -/

/-- Shared helper: the record produced by `extractMemberInfo` carries, as its
name, exactly the first non-empty trimmed name-selector text, and the record
exists iff such a text exists.  No shape check or denylist intervenes. -/
theorem extractMemberInfo_map_name (resolve : String → String → String) (elem : Element) (baseUrl : String) (idx : Option Nat) : (extractMemberInfo resolve elem baseUrl idx).map ScrapedMember.name = strToOpt (firstNonEmptyText elem.nameTexts) := by
  simp only [extractMemberInfo, strToOpt]
  split <;> simp

def elemC5 : Element := { nameTexts := [some "more"] }

def resolveConcat : String → String → String := fun base rel => base ++ rel

/-- Claim C5, counterexample: a container whose name selector yields the
navigation label `"more"` (a single lowercase word) is accepted by the
selector cascade and appears in the strategy's output — there is no shape
check and no denylist in `extractMemberInfo`/`parseTeamPage`. -/
theorem selectorCascade_accepts_nav_label : ((selectorCascade resolveConcat [[elemC5]] "https://example.com").1).map ScrapedMember.name = ["more"] := by decide

/-- Claim C5 (amended): a selector-cascade candidate is accepted iff some
name selector produced non-empty trimmed text, and the found name is used
verbatim — no minimal shape check and no boilerplate denylist is applied. -/
theorem extractMemberInfo_accepts_iff_name_found (resolve : String → String → String) (elem : Element) (baseUrl : String) (idx : Option Nat) : (extractMemberInfo resolve elem baseUrl idx).map ScrapedMember.name = strToOpt (firstNonEmptyText elem.nameTexts) := extractMemberInfo_map_name resolve elem baseUrl idx

/-! ## Claim C6 — single-target failure containment -/

/-- Claim C6: when both attempts fail (the fallback pipeline ends in an
error), `scrapeFirm` returns a result object with an empty member list and
the error message, and appends an `error`-status scrape-history row; the
error is not re-thrown (the embedding is a total function on the error
case). -/
theorem scrapeFirm_failure_contained (firmId msg : String) (st : Storage) : (scrapeFirm firmId (.error msg) st).1 = { members := [], error := some msg } ∧ (scrapeFirm firmId (.error msg) st).2.scrapeHistory = st.scrapeHistory ++ [{ firmId := firmId, status := "error", membersFound := 0, changesDetected := 0, errorMessage := some msg }] := ⟨rfl, rfl⟩

/-! ## Claim C8 — browser resource release -/

/-- Claim C8, counterexample: a run whose static fetch fails and whose
dynamic phase throws terminates with the page still open and the browser
session still held — the dynamic phase has no `finally`-style cleanup, so
release does depend on success. -/
theorem dynamic_failure_leaks_page : (scrapeFirmWithFallbackRes (.error "HTTP 500") (.error "net::ERR_TIMED_OUT") {}).2 = { browserOpen := true, pagesOpen := 1 } := rfl

/-- Claim C8 (amended): the page opened for a dynamic run is closed on the
success path only, and the browser session itself is released not per run
but at the batch boundary — `runScrapingJob`'s `finally` always leaves the
scraper with no browser and no pages open, whatever the per-target
outcomes. -/
theorem browser_released_at_batch_boundary : (∀ (firms : List FirmRun) (st : Storage) (bs : BrowserState), (runScrapingJob firms st bs).2.2 = { browserOpen := false, pagesOpen := 0 }) ∧ (∀ (ms : List ScrapedMember) (bs : BrowserState), (dynamicPhase (.ok ms) bs).2.pagesOpen = bs.pagesOpen) := by
  constructor
  · intro firms st bs; rfl
  · intro ms bs; simp [dynamicPhase]

/-! ## Claims C9 and C3 — Deduplicator -/

theorem dedupGo_key_not_seen : ∀ (ms : List ScrapedMember) (seen : List String) (r : ScrapedMember), r ∈ dedupGo ms seen → dedupKey r ∉ seen
  | [], _, _, h => absurd h (List.not_mem_nil _)
  | m :: rest, seen, r, h => by
    simp only [dedupGo] at h
    split at h
    · exact dedupGo_key_not_seen rest seen r h
    · next hc =>
      rcases List.mem_cons.mp h with rfl | h'
      · exact fun hmem => hc (by simpa using hmem)
      · have := dedupGo_key_not_seen rest (dedupKey m :: seen) r h'
        exact fun hmem => this (List.mem_cons_of_mem _ hmem)

theorem dedupGo_keys_nodup : ∀ (ms : List ScrapedMember) (seen : List String), ((dedupGo ms seen).map dedupKey).Nodup
  | [], _ => List.nodup_nil
  | m :: rest, seen => by
    simp only [dedupGo]
    split
    · exact dedupGo_keys_nodup rest seen
    · simp only [List.map_cons, List.nodup_cons]
      refine ⟨?_, dedupGo_keys_nodup rest (dedupKey m :: seen)⟩
      intro hmem
      rcases List.mem_map.mp hmem with ⟨r, hr, hkey⟩
      exact dedupGo_key_not_seen rest (dedupKey m :: seen) r hr
        (hkey ▸ List.mem_cons_self _ _)

theorem dedupGo_keys_iff : ∀ (ms : List ScrapedMember) (seen : List String) (k : String), k ∈ (dedupGo ms seen).map dedupKey ↔ (k ∉ seen ∧ k ∈ ms.map dedupKey)
  | [], seen, k => by simp [dedupGo]
  | m :: rest, seen, k => by
    simp only [dedupGo]
    split
    · next hc =>
      rw [dedupGo_keys_iff rest seen k]
      have hm : dedupKey m ∈ seen := by simpa using hc
      simp only [List.map_cons, List.mem_cons]
      constructor
      · rintro ⟨h1, h2⟩; exact ⟨h1, Or.inr h2⟩
      · rintro ⟨h1, h2 | h2⟩
        · exact absurd (h2 ▸ hm) h1
        · exact ⟨h1, h2⟩
    · next hc =>
      have hm : dedupKey m ∉ seen := by simpa using hc
      simp only [List.map_cons, List.mem_cons]
      rw [dedupGo_keys_iff rest (dedupKey m :: seen) k]
      simp only [List.mem_cons]
      constructor
      · rintro (rfl | ⟨h1, h2⟩)
        · exact ⟨hm, Or.inl rfl⟩
        · exact ⟨fun hs => h1 (Or.inr hs), Or.inr h2⟩
      · rintro ⟨h1, rfl | h2⟩
        · exact Or.inl rfl
        · by_cases hk : k = dedupKey m
          · exact Or.inl hk
          · exact Or.inr ⟨fun hs => hs.elim hk h1, h2⟩

/-- Claim C9: the Deduplicator's output has pairwise-distinct identity keys,
and a key occurs among the output records iff it occurs among the input
records — so all candidates sharing a key collapse to exactly one output
record. -/
theorem deduplicateMembers_one_per_identity (ms : List ScrapedMember) : ((deduplicateMembers ms).map dedupKey).Nodup ∧ ∀ k : String, k ∈ (deduplicateMembers ms).map dedupKey ↔ k ∈ ms.map dedupKey := by
  refine ⟨dedupGo_keys_nodup ms [], fun k => ?_⟩
  rw [deduplicateMembers, dedupGo_keys_iff]
  simp

theorem dedupGo_find? : ∀ (ms : List ScrapedMember) (seen : List String) (r : ScrapedMember), r ∈ dedupGo ms seen → ms.find? (fun m => dedupKey m == dedupKey r) = some r
  | [], _, _, h => absurd h (List.not_mem_nil _)
  | m :: rest, seen, r, h => by
    simp only [dedupGo] at h
    split at h
    · next hc =>
      have hm : dedupKey m ∈ seen := by simpa using hc
      have hr := dedupGo_key_not_seen rest seen r h
      have hne : dedupKey m ≠ dedupKey r := fun he => hr (he ▸ hm)
      rw [List.find?_cons_of_neg _ (by simpa using hne)]
      exact dedupGo_find? rest seen r h
    · rcases List.mem_cons.mp h with rfl | h'
      · rw [List.find?_cons_of_pos _ (by simp)]
      · have hr := dedupGo_key_not_seen rest (dedupKey m :: seen) r h'
        have hne : dedupKey m ≠ dedupKey r := fun he => hr (he ▸ List.mem_cons_self _ _)
        rw [List.find?_cons_of_neg _ (by simpa using hne)]
        exact dedupGo_find? rest (dedupKey m :: seen) r h'

def m1C3 : ScrapedMember := { name := "Jane Doe", entityKey := some "k" }

def m2C3 : ScrapedMember :=
  { name := "Jane Doe", title := some "Partner", bio := some "Investor since 2001"
    entityKey := some "k" }

/-- Claim C3, counterexample: two same-identity candidates, the first
without a title/bio and a later one with them; the Deduplicator's single
output record has `title = none` and `bio = none` — the later candidate's
populated fields are discarded, not merged. -/
theorem deduplicateMembers_no_merge : (deduplicateMembers [m1C3, m2C3]).map (fun r => (r.title, r.bio)) = [(none, none)] ∧ m2C3.title = some "Partner" ∧ dedupKey m1C3 = dedupKey m2C3 := by decide

/-- Claim C3 (amended): within a same-identity group the Deduplicator does
not merge fields — every output record is, verbatim, the first input record
carrying its identity key. -/
theorem deduplicateMembers_keeps_first_verbatim (ms : List ScrapedMember) (r : ScrapedMember) (hr : r ∈ deduplicateMembers ms) : ms.find? (fun m => dedupKey m == dedupKey r) = some r := dedupGo_find? ms [] r hr

/-- Witness for the amended C3 theorem: the first record of the group is
returned unchanged. -/
theorem deduplicateMembers_keeps_first_verbatim_witness : m1C3 ∈ deduplicateMembers [m1C3, m2C3] ∧ [m1C3, m2C3].find? (fun m => dedupKey m == dedupKey m1C3) = some m1C3 := ⟨by decide, deduplicateMembers_keeps_first_verbatim [m1C3, m2C3] m1C3 (by decide)⟩

/-! ## Claims C2 and C4 — Roster Differ -/

/-- With pairwise-distinct stored keys, the JS-`Map` lookup over the
`(storedKey m, m)` pairs returns the member itself. -/
theorem jsMapGet_of_nodup : ∀ (l : List StoredMember), ((l.map storedKey).Nodup) → ∀ m ∈ l, jsMapGet (l.map (fun x => (storedKey x, x))) (storedKey m) = some m := by
  intro l
  induction l with
  | nil => intro _ m hm; exact absurd hm (List.not_mem_nil m)
  | cons a rest ih =>
    intro hnd m hm
    simp only [List.map_cons, List.nodup_cons] at hnd
    obtain ⟨ha, hrest⟩ := hnd
    simp only [jsMapGet, List.map_cons, List.reverse_cons, List.find?_append]
    rcases List.mem_cons.mp hm with rfl | hm'
    · have hnone : ((rest.map (fun x => (storedKey x, x))).reverse.find?
          (fun p => p.1 = storedKey m)) = none := by
        rw [List.find?_eq_none]
        rintro ⟨k, x⟩ hx
        simp only [List.mem_reverse, List.mem_map] at hx
        obtain ⟨y, hy, he⟩ := hx
        cases he
        simp only [decide_eq_true_eq]
        intro hcontra
        exact ha (hcontra ▸ List.mem_map_of_mem storedKey hy)
      rw [hnone]
      simp [Option.or]
    · have hfound := ih hrest m hm'
      simp only [jsMapGet] at hfound
      cases hfind : (rest.map (fun x => (storedKey x, x))).reverse.find?
          (fun p => p.1 = storedKey m) with
      | none => rw [hfind] at hfound; simp at hfound
      | some pr =>
        rw [hfind] at hfound
        simpa [Option.or] using hfound

/-- Comparing a stored member against its own payload reports no changes. -/
theorem hasChanges_self (m : StoredMember) : hasChanges m m.data = false := by
  simp [hasChanges]

/-- Claim C2 (amended): diffing a snapshot that is field-for-field identical
to the previous-active set yields zero changes and leaves storage untouched,
provided each member's two map keys agree (which holds whenever the member
has an entity key, or its `normalizedName` — when present — equals its
lowercased name) and the keys are pairwise distinct. -/
theorem detectChanges_identical_is_noop (st : Storage) (firmId : String) (H1 : ∀ m ∈ st.activeMembersByFirm firmId, storedKey m = scrapedKey m.data) (H2 : ((st.activeMembersByFirm firmId).map storedKey).Nodup) : detectChanges firmId ((st.activeMembersByFirm firmId).map StoredMember.data) st = (0, st) := by
  simp only [detectChanges]
  have hrem : (st.activeMembersByFirm firmId).foldl
      (removedStep firmId (((st.activeMembersByFirm firmId).map StoredMember.data).map scrapedKey))
      (0, st) = (0, st) := by
    apply foldl_fixed
    intro cur hcur acc
    simp only [removedStep]
    rw [if_pos]
    have hmem : storedKey cur ∈ ((st.activeMembersByFirm firmId).map StoredMember.data).map scrapedKey := by
      rw [H1 cur hcur]
      exact List.mem_map_of_mem _ (List.mem_map_of_mem _ hcur)
    simpa using hmem
  rw [hrem]
  apply foldl_fixed
  intro scr hscr acc
  obtain ⟨cur, hcur, rfl⟩ := List.mem_map.mp hscr
  simp only [addedStep]
  rw [← H1 cur hcur, jsMapGet_of_nodup _ H2 cur hcur]
  simp [hasChanges_self]

/-- Witness for the amended C2 theorem on a concrete one-member roster. -/
def smW2 : StoredMember :=
  { id := 0, firmId := "f", isActive := true
    data := { name := "Jane Doe", title := some "Partner", entityKey := some "k" } }

def stW2 : Storage := { members := [smW2], nextId := 1 }

theorem detectChanges_identical_is_noop_witness : (∀ m ∈ stW2.activeMembersByFirm "f", storedKey m = scrapedKey m.data) ∧ ((stW2.activeMembersByFirm "f").map storedKey).Nodup ∧ detectChanges "f" ((stW2.activeMembersByFirm "f").map StoredMember.data) stW2 = (0, stW2) := ⟨by decide, by decide, detectChanges_identical_is_noop stW2 "f" (by decide) (by decide)⟩

/-- Counterexample data for C2 as stated: the member has no entity key, and
its `normalizedName` (`"john smith"`) differs from its lowercased raw name
(`"john smith."`), so the two maps of `detectChanges` key it differently. -/
def smC2 : ScrapedMember := { name := "John Smith.", normalizedName := some "john smith" }

def stC2 : Storage := { members := [{ id := 0, firmId := "f", isActive := true, data := smC2 }], nextId := 1 }

/-- Claim C2, counterexample: a new snapshot field-for-field identical to
the previous-active set nevertheless produces 2 change events (a spurious
`removed` plus a spurious `added`), because the stored side is keyed by
`entityKey || name.toLowerCase()` while the scraped side is keyed by
`entityKey || normalizedName || name.toLowerCase()`. -/
theorem detectChanges_identical_not_zero : (stC2.activeMembersByFirm "f").map StoredMember.data = [smC2] ∧ (detectChanges "f" [smC2] stC2).1 = 2 ∧ ((detectChanges "f" [smC2] stC2).2.changeHistory.map ChangeRec.changeType) = ["removed", "added"] := by decide

/-- Claim C4 (amended): for a matched previous/new pair, an `updated` event
is emitted iff `hasChanges` holds, i.e. iff one of exactly five fields —
title, bio, imageUrl, location, seniorityLevel — differs; `category` and the
profile/contact link fields are not part of the comparison, so a difference
confined to them emits nothing (and performs no update write). -/
theorem detectChanges_matched_pair_update (sm : StoredMember) (scr : ScrapedMember) (firmId : String) (hfid : sm.firmId = firmId) (hact : sm.isActive = true) (hkey : storedKey sm = scrapedKey scr) : (detectChanges firmId [scr] { members := [sm], nextId := sm.id + 1 }).1 = (if hasChanges sm scr then 1 else 0) ∧ (detectChanges firmId [scr] { members := [sm], nextId := sm.id + 1 }).2.changeHistory = (if hasChanges sm scr then [{ firmId := firmId, memberId := some sm.id, changeType := "updated", memberName := sm.data.name, memberTitle := jsOrOpt scr.title sm.data.title, previousData := some { name := sm.data.name, title := sm.data.title, bio := sm.data.bio, location := sm.data.location }, newData := some { name := sm.data.name, title := scr.title, bio := scr.bio, location := scr.location } }] else []) := by
  have hactive : (Storage.mk [sm] (sm.id + 1) [] [] []).activeMembersByFirm firmId = [sm] := by
    simp [Storage.activeMembersByFirm, hfid, hact]
  have hid : jsMapGet [(scrapedKey scr, sm)] (scrapedKey scr) = some sm := by
    simp [jsMapGet]
  cases h : hasChanges sm scr with
  | true =>
    constructor <;>
      simp [detectChanges, hactive, removedStep, addedStep, hkey, hid, h,
        Storage.appendChange, Storage.updateMemberData]
  | false =>
    constructor <;>
      simp [detectChanges, hactive, removedStep, addedStep, hkey, hid, h]

def smW4 : StoredMember :=
  { id := 0, firmId := "f", isActive := true
    data := { name := "Jane Doe", title := some "Partner", entityKey := some "k" } }

def scrW4 : ScrapedMember :=
  { name := "Jane Doe", title := some "Managing Partner", entityKey := some "k" }

/-- Witness for the amended C4 theorem at a pair differing in `title`. -/
theorem detectChanges_matched_pair_update_witness : smW4.firmId = "f" ∧ smW4.isActive = true ∧ storedKey smW4 = scrapedKey scrW4 ∧ (detectChanges "f" [scrW4] { members := [smW4], nextId := smW4.id + 1 }).1 = (if hasChanges smW4 scrW4 then 1 else 0) := ⟨rfl, rfl, by decide, (detectChanges_matched_pair_update smW4 scrW4 "f" rfl rfl (by decide)).1⟩

def dataC4 : ScrapedMember :=
  { name := "Jane Doe", title := some "Partner", entityKey := some "k" }

def scrC4 : ScrapedMember :=
  { dataC4 with category := some "Growth", profileUrl := some "https://x/profile" }

def stC4 : Storage :=
  { members := [{ id := 0, firmId := "f", isActive := true, data := dataC4 }], nextId := 1 }

/-- Claim C4, counterexample: a matched pair that differs only in `category`
and `profileUrl` (both in the claim's fixed mutable set) produces zero
changes and leaves storage untouched — no `updated` event is emitted. -/
theorem detectChanges_ignores_category_and_links : dataC4.category ≠ scrC4.category ∧ dataC4.profileUrl ≠ scrC4.profileUrl ∧ detectChanges "f" [scrC4] stC4 = (0, stC4) := by decide

/-! ## Claim C7 — batch isolation -/

/-- The resource-tracking orchestrator computes the same outcome as the pure
one. -/
theorem scrapeFirmWithFallbackRes_fst (s d : Except String (List ScrapedMember)) (bs : BrowserState) : (scrapeFirmWithFallbackRes s d bs).1 = scrapeFirmWithFallback s d := by
  cases s with
  | ok ms =>
    simp only [scrapeFirmWithFallbackRes, scrapeFirmWithFallback]
    split
    · rfl
    · cases d <;> rfl
  | error e => cases d <;> rfl

/-- Change detection never touches the scrape-history log. -/
theorem detectChanges_scrapeHistory (firmId : String) (ms : List ScrapedMember) (st : Storage) : (detectChanges firmId ms st).2.scrapeHistory = st.scrapeHistory := by
  simp only [detectChanges]
  have h1 : ∀ (acc : Nat × Storage) cur,
      (removedStep firmId (ms.map scrapedKey) acc cur).2.scrapeHistory = acc.2.scrapeHistory := by
    intro acc cur
    simp only [removedStep]
    split <;> rfl
  have h2 : ∀ (acc : Nat × Storage) scr,
      (addedStep firmId ((st.activeMembersByFirm firmId).map (fun m => (storedKey m, m))) acc scr).2.scrapeHistory = acc.2.scrapeHistory := by
    intro acc scr
    simp only [addedStep]
    split
    · rfl
    · split <;> rfl
  have hrem := foldl_pres (removedStep firmId (ms.map scrapedKey))
    (fun acc => acc.2.scrapeHistory = st.scrapeHistory)
    (fun b a hb => by simp only [h1 b a]; exact hb)
    (st.activeMembersByFirm firmId) (0, st) rfl
  exact foldl_pres (addedStep firmId ((st.activeMembersByFirm firmId).map (fun m => (storedKey m, m))))
    (fun acc => acc.2.scrapeHistory = st.scrapeHistory)
    (fun b a hb => by simp only [h2 b a]; exact hb)
    ms _ hrem

/-- The scrape-history row that one firm's run appends: `success` with the
record count when the fallback pipeline succeeded, `error` with the message
otherwise. -/
def firmHistoryEntry (f : FirmRun) : HistoryEntry :=
  match scrapeFirmWithFallback f.staticResult f.dynamicResult with
  | .ok ms => { firmId := f.firmId, status := "success", membersFound := ms.length
                changesDetected := 0, errorMessage := none }
  | .error e => { firmId := f.firmId, status := "error", membersFound := 0
                  changesDetected := 0, errorMessage := some e }

theorem runFirmStep_scrapeHistory (acc : JobStats × Storage × BrowserState) (f : FirmRun) : (runFirmStep acc f).2.1.scrapeHistory = acc.2.1.scrapeHistory ++ [firmHistoryEntry f] := by
  simp only [runFirmStep, firmHistoryEntry, scrapeFirmWithFallbackRes_fst]
  cases hfb : scrapeFirmWithFallback f.staticResult f.dynamicResult with
  | ok ms =>
    simp [scrapeFirm, Storage.appendScrapeHistory, Storage.recordFirmUpdate,
      detectChanges_scrapeHistory]
  | error e =>
    simp [scrapeFirm, Storage.appendScrapeHistory, Storage.recordFirmUpdate]

theorem runFirmStep_counts (acc : JobStats × Storage × BrowserState) (f : FirmRun) : (runFirmStep acc f).1.successCount + (runFirmStep acc f).1.errorCount = acc.1.successCount + acc.1.errorCount + 1 := by
  simp only [runFirmStep, scrapeFirmWithFallbackRes_fst]
  cases hfb : scrapeFirmWithFallback f.staticResult f.dynamicResult with
  | ok ms => simp [scrapeFirm]; omega
  | error e => simp [scrapeFirm]; omega

theorem runFold_spec : ∀ (firms : List FirmRun) (start : JobStats × Storage × BrowserState), (firms.foldl runFirmStep start).2.1.scrapeHistory = start.2.1.scrapeHistory ++ firms.map firmHistoryEntry ∧ (firms.foldl runFirmStep start).1.successCount + (firms.foldl runFirmStep start).1.errorCount = start.1.successCount + start.1.errorCount + firms.length
  | [], start => by simp
  | f :: rest, start => by
    simp only [List.foldl_cons, List.map_cons, List.length_cons]
    obtain ⟨h1, h2⟩ := runFold_spec rest (runFirmStep start f)
    rw [h1, h2, runFirmStep_scrapeHistory, runFirmStep_counts]
    exact ⟨by simp, by omega⟩

/-- Claim C7: a batch run appends exactly one scrape-history row per target,
in order — an `error` row when that target's pipeline threw, a `success` row
otherwise — and every target is counted exactly once, so failures of earlier
targets never prevent later targets from being processed and recorded. -/
theorem runScrapingJob_processes_every_target (firms : List FirmRun) (st : Storage) (bs : BrowserState) : (runScrapingJob firms st bs).2.1.scrapeHistory = st.scrapeHistory ++ firms.map firmHistoryEntry ∧ (runScrapingJob firms st bs).1.successCount + (runScrapingJob firms st bs).1.errorCount = firms.length := by
  have h := runFold_spec firms ({}, st, bs)
  simp only [runScrapingJob]
  exact ⟨h.1, by have h2 := h.2; simpa using h2⟩

/-! ## Claim C10 — extracted records always carry a name -/

/-- Deduplication only filters: every output record occurs in the input. -/
theorem dedupGo_subset : ∀ (ms : List ScrapedMember) (seen : List String) (r : ScrapedMember), r ∈ dedupGo ms seen → r ∈ ms
  | [], _, _, h => absurd h (List.not_mem_nil _)
  | m :: rest, seen, r, h => by
    simp only [dedupGo] at h
    split at h
    · exact List.mem_cons_of_mem m (dedupGo_subset rest seen r h)
    · rcases List.mem_cons.mp h with rfl | h'
      · exact List.mem_cons_self r rest
      · exact List.mem_cons_of_mem m (dedupGo_subset rest (dedupKey m :: seen) r h')

/-- A record accepted by the selector cascade has a non-empty name. -/
theorem extractMemberInfo_name_ne {resolve : String → String → String} {elem : Element} {baseUrl : String} {idx : Option Nat} {m : ScrapedMember} (h : extractMemberInfo resolve elem baseUrl idx = some m) : m.name ≠ "" := by
  have hmap := congrArg (Option.map ScrapedMember.name) h
  rw [extractMemberInfo_map_name] at hmap
  simp only [Option.map_some'] at hmap
  simp only [strToOpt] at hmap
  split at hmap
  · exact absurd hmap (by simp)
  · next hne =>
    injection hmap with h'
    intro hc
    exact hne (h'.trans hc)

/-- A record produced by the JSON-LD strategy has a non-empty name. -/
theorem extractPersonsFromJsonLd_name_ne {resolve : String → String → String} {items : List JsonLdItem} {baseUrl : String} {m : ScrapedMember} (h : m ∈ extractPersonsFromJsonLd resolve items baseUrl) : m.name ≠ "" := by
  simp only [extractPersonsFromJsonLd, List.mem_filterMap] at h
  obtain ⟨item, _, hf⟩ := h
  split at hf
  · next hcond =>
    simp only [Bool.and_eq_true, decide_eq_true_eq] at hcond
    cases hf
    exact hcond.2
  · exact absurd hf (by simp)

theorem cascadeElemStep_names {resolve : String → String → String} {baseUrl : String} (acc : List ScrapedMember × Nat) (elem : Element) (hacc : ∀ r ∈ acc.1, r.name ≠ "") : ∀ r ∈ (cascadeElemStep resolve baseUrl acc elem).1, r.name ≠ "" := by
  intro r hr
  simp only [cascadeElemStep] at hr
  split at hr
  · next m hm =>
    split at hr
    · rcases List.mem_append.mp hr with h | h
      · exact hacc r h
      · rw [List.mem_singleton.mp h]
        exact extractMemberInfo_name_ne hm
    · exact hacc r hr
  · exact hacc r hr

theorem selectorCascade_names {resolve : String → String → String} {selectorMatches : List (List Element)} {baseUrl : String} (r : ScrapedMember) (hr : r ∈ (selectorCascade resolve selectorMatches baseUrl).1) : r.name ≠ "" := by
  have hinv := foldl_pres
    (fun acc elems => elems.foldl (cascadeElemStep resolve baseUrl) acc)
    (fun acc => ∀ x ∈ acc.1, x.name ≠ "")
    (fun b elems hb => foldl_pres (cascadeElemStep resolve baseUrl)
      (fun acc => ∀ x ∈ acc.1, x.name ≠ "")
      (fun b2 e hb2 => cascadeElemStep_names b2 e hb2) elems b hb)
    selectorMatches ([], 0) (by simp)
  exact hinv r hr

/-- A capitalized word starts with an `[A-Z]` character. -/
theorem capWordCh_shape {cs w r : List Char} (h : capWordCh cs = some (w, r)) : ∃ c ls, w = c :: ls ∧ isUpperAZ c = true := by
  match cs, h with
  | c :: rest, h => ?_
  simp only [capWordCh] at h
  split at h
  · next hup =>
    split at h
    · exact absurd h (by simp)
    · cases h; exact ⟨c, rest.takeWhile isLowerAZ, rfl, hup⟩
  · exact absurd h (by simp)

/-- Trimming a char list headed by a non-whitespace char is non-empty. -/
theorem jsTrim_cons_ne {c : Char} {l : List Char} (hc : jsWhitespaceCh c = false) : jsTrim ⟨c :: l⟩ ≠ "" := by
  simp only [jsTrim]
  have h1 : (c :: l).dropWhile jsWhitespaceCh = c :: l := by
    rw [List.dropWhile_cons]; simp [hc]
  rw [h1]
  intro hcontra
  have h2 : (((c :: l).reverse.dropWhile jsWhitespaceCh).reverse) = [] := by
    have := congrArg String.data hcontra; simpa using this
  rw [List.reverse_eq_nil_iff, List.dropWhile_eq_nil_iff] at h2
  have := h2 c (by simp)
  rw [hc] at this
  exact Bool.false_ne_true this

/-- An `[A-Z]` char is not JS whitespace. -/
theorem isUpperAZ_not_ws {c : Char} (h : isUpperAZ c = true) : jsWhitespaceCh c = false := by
  simp only [isUpperAZ, Bool.and_eq_true, decide_eq_true_eq] at h
  simp only [jsWhitespaceCh, Bool.or_eq_false_iff, decide_eq_false_iff_not]
  omega

theorem matchNameCommaTitle_name_ne {s n t : String} (h : matchNameCommaTitle s = some (n, t)) : n ≠ "" := by
  simp only [matchNameCommaTitle] at h
  split at h
  · exact absurd h (by simp)
  · next w1 r1 hw1 =>
    split at h
    · exact absurd h (by simp)
    · split at h
      · exact absurd h (by simp)
      · next w2 r3 hw2 =>
        split at h
        · next r4 =>
          split at h
          · exact absurd h (by simp)
          · split at h
            · obtain ⟨c, ls, rfl, hup⟩ := capWordCh_shape hw1
              cases h
              exact jsTrim_cons_ne (isUpperAZ_not_ws hup)
            · exact absurd h (by simp)
        · exact absurd h (by simp)

theorem matchNameDashTitle_name_ne {s n t : String} (h : matchNameDashTitle s = some (n, t)) : n ≠ "" := by
  simp only [matchNameDashTitle] at h
  split at h
  · exact absurd h (by simp)
  · next w1 r1 hw1 =>
    split at h
    · exact absurd h (by simp)
    · split at h
      · exact absurd h (by simp)
      · next w2 r3 hw2 =>
        split at h
        · next r4 =>
          split at h
          · exact absurd h (by simp)
          · split at h
            · obtain ⟨c, ls, rfl, hup⟩ := capWordCh_shape hw1
              cases h
              exact jsTrim_cons_ne (isUpperAZ_not_ws hup)
            · exact absurd h (by simp)
        · exact absurd h (by simp)

theorem fallbackStep_names (acc : List ScrapedMember) (raw : String) (hacc : ∀ r ∈ acc, r.name ≠ "") : ∀ r ∈ fallbackStep acc raw, r.name ≠ "" := by
  intro r hr
  simp only [fallbackStep] at hr
  split at hr
  · have hstep1 : ∀ q (h1 : ∀ x ∈ q, ScrapedMember.name x ≠ "")
        (hq : r ∈ (match matchNameDashTitle (jsTrim raw) with
          | some (name, title) => q ++ [fallbackMember name title]
          | none => q)), r.name ≠ "" := by
      intro q h1 hq
      split at hq
      · next name title hm =>
        rcases List.mem_append.mp hq with h | h
        · exact h1 r h
        · rw [List.mem_singleton.mp h]
          exact matchNameDashTitle_name_ne hm
      · exact h1 r hq
    apply hstep1 _ ?_ hr
    intro x hx
    split at hx
    · next name title hm =>
      rcases List.mem_append.mp hx with h | h
      · exact hacc x h
      · rw [List.mem_singleton.mp h]
        exact matchNameCommaTitle_name_ne hm
    · exact hacc x hx
  · exact hacc r hr

theorem extractMembersFallback_names {texts : List String} (r : ScrapedMember) (hr : r ∈ extractMembersFallback texts) : r.name ≠ "" := by
  have hinv := foldl_pres fallbackStep (fun acc => ∀ x ∈ acc, x.name ≠ "")
    (fun b a hb => fallbackStep_names b a hb) texts [] (by simp)
  exact hinv r hr

/-- Claim C10: every record returned by `parseTeamPage` has a non-empty
name — the JSON-LD strategy skips nameless `Person` items, the selector
cascade only accepts containers with a found name, the free-text fallback
only emits regex-matched capitalized names, and deduplication only filters. -/
theorem parseTeamPage_names_nonempty (resolve : String → String → String) (doc : Doc) (baseUrl : String) (m : ScrapedMember) (hm : m ∈ parseTeamPage resolve doc baseUrl) : m.name ≠ "" := by
  simp only [parseTeamPage] at hm
  have hmem := dedupGo_subset _ [] m hm
  split at hmem
  · rcases List.mem_append.mp hmem with h | h
    · rcases List.mem_append.mp h with h' | h'
      · exact extractPersonsFromJsonLd_name_ne h'
      · exact selectorCascade_names m h'
    · exact extractMembersFallback_names m h
  · rcases List.mem_append.mp hmem with h | h
    · exact extractPersonsFromJsonLd_name_ne h
    · exact selectorCascade_names m h

def docW10 : Doc := { jsonLdItems := [{ isPerson := true, name := "Ada Lovelace" }] }

def memberW10 : ScrapedMember :=
  { name := "Ada Lovelace", normalizedName := some "ada lovelace"
    entityKey := some "nm:ada lovelace" }

/-- Witness for C10 on a concrete document. -/
theorem parseTeamPage_names_nonempty_witness : memberW10 ∈ parseTeamPage resolveConcat docW10 "https://x" ∧ memberW10.name ≠ "" := ⟨by decide, parseTeamPage_names_nonempty resolveConcat docW10 "https://x" memberW10 (by decide)⟩

end Tracker
